import Mathlib

/-!
The scale registry of `OC_scales.cpp`.

A shallow embedding of `software/o_c_REV/OC_scales.cpp`: the user-slot array
`user_scales`, the constant `Scales::NUM_SCALES`, the operations `Scales::Init`
and `Scales::GetScale`, and the two name tables `scale_names_short` and
`scale_names`.

Conventions of the embedding.

* C++ array accesses are total here: an access outside the bounds of the array
  (undefined behaviour in the source) yields `none`.
* `int` values are `Int`, `size_t` values are `Nat`.  The only arithmetic of the
  file is `index - SCALE_USER_LAST` on the branch `index >= SCALE_USER_LAST`
  and the sum that defines `NUM_SCALES`; the sum is taken exactly, i.e. the
  number of catalogue entries is assumed to be representable in an `int`.
* The two headers the file includes are not part of the sources at hand.  What
  the file takes from them (the record type `Scale`, the enumerator
  `SCALE_USER_LAST`, the table `braids::scales`) is a parameter, see `Config`.
-/

namespace OC

/-! ## Data model -/

/-- Modelled from the spec: the record type `Scale`, which is declared in a
header outside the sources at hand.  The spec describes it as a fixed-size,
copyable value holding a count of notes per octave and a sequence of
interval / pitch-class values. -/
structure Scale where
  /-- Count of notes per octave. -/
  num_notes : Int
  /-- Interval / pitch-class values. -/
  notes : List Int
  deriving DecidableEq

/-- What `OC_scales.cpp` takes from its two headers: the enumerator
`Scales::SCALE_USER_LAST` (it is the dimension of the array `user_scales`,
hence a natural number) and the read-only preset table `braids::scales`. -/
structure Config where
  /-- The enumerator `Scales::SCALE_USER_LAST`. -/
  SCALE_USER_LAST : Nat
  /-- The table `braids::scales`. -/
  scales : List Scale
  deriving DecidableEq

/-- The mutable globals of the file (lines 6 and 7): `user_scales` and
`dummy_scale`. -/
structure State where
  /-- The array `Scale user_scales[Scales::SCALE_USER_LAST]`. -/
  user_scales : List Scale
  /-- The global `Scale dummy_scale`. -/
  dummy_scale : Scale
  deriving DecidableEq

/-- The array `user_scales` has exactly `SCALE_USER_LAST` elements (its declared
dimension, line 6). -/
def State.WF (cfg : Config) (s : State) : Prop :=
  s.user_scales.length = cfg.SCALE_USER_LAST

instance (cfg : Config) (s : State) : Decidable (State.WF cfg s) := by
  unfold State.WF
  infer_instance

/-- `Scales::NUM_SCALES` (line 10):
`SCALE_USER_LAST + sizeof(braids::scales) / sizeof(braids::scales[0])`. -/
def NUM_SCALES (cfg : Config) : Int :=
  (cfg.SCALE_USER_LAST : Int) + (cfg.scales.length : Int)

/-- The element of a C++ array at a signed position; `none` when the position
is outside the array. -/
def arrayAt (xs : List Scale) (pos : Int) : Option Scale :=
  if 0 ≤ pos then xs[pos.toNat]? else none

/-- The storage location an evaluation of `GetScale` dereferences. -/
inductive Access where
  /-- The element `user_scales[pos]`. -/
  | user (pos : Int)
  /-- The element `braids::scales[pos]`. -/
  | preset (pos : Int)
  deriving DecidableEq

/-- The branch of `Scales::GetScale` (lines 20 to 23): which array is indexed,
and at which position. -/
def GetScale.access (cfg : Config) (index : Int) : Access :=
  if index < (cfg.SCALE_USER_LAST : Int) then
    Access.user index
  else
    Access.preset (index - (cfg.SCALE_USER_LAST : Int))

/-- Dereference of a storage location. -/
def Access.read (cfg : Config) (s : State) : Access → Option Scale
  | Access.user pos => arrayAt s.user_scales pos
  | Access.preset pos => arrayAt cfg.scales pos

/-- `Scales::GetScale(int index)` (lines 19 to 24). -/
def GetScale (cfg : Config) (s : State) (index : Int) : Option Scale :=
  (GetScale.access cfg index).read cfg s

/-- The `for` loop of `Scales::Init` (lines 14 and 15), from the counter value
`i` on: each round copies `braids::scales[1]` over `user_scales[i]`. -/
def Init.loop (cfg : Config) (i : Nat) (us : List Scale) : Option (List Scale) :=
  if i < cfg.SCALE_USER_LAST then
    match cfg.scales[1]? with
    | none => none
    | some seed =>
      if i < us.length then
        Init.loop cfg (i + 1) (us.set i seed)
      else
        none
  else
    some us
termination_by cfg.SCALE_USER_LAST - i

/-- `Scales::Init()` (lines 13 to 16). -/
def Init (cfg : Config) (s : State) : Option State :=
  match Init.loop cfg 0 s.user_scales with
  | none => none
  | some us => some { s with user_scales := us }

/-- The assignment `user_scales[i] = v` to the global array of line 6, the
storage `GetScale` reads on its user branch; `none` when `i` is outside the
array. (The editors that perform such stores are callers outside this file.) -/
def storeUserScale (s : State) (i : Nat) (v : Scale) : Option State :=
  if i < s.user_scales.length then
    some { s with user_scales := s.user_scales.set i v }
  else
    none

/-- The table `scale_names_short` (lines 26 to 79). -/
def scale_names_short : List String :=
  [ "USER1", "USER2", "USER3", "USER4",
    "OFF ", "SEMI", "IONI", "DORI", "PHRY", "LYDI", "MIXO", "AEOL", "LOCR",
    "BLU+", "BLU-", "PEN+", "PEN-", "FOLK", "JAPA", "GAME", "GYPS", "ARAB",
    "FLAM", "WHOL", "PYTH", "EB/4", "E /4", "EA/4", "BHAI", "GUNA", "MARW",
    "SHRI", "PURV", "BILA", "YAMA", "KAFI", "BHIM", "DARB", "RAGE", "KHAM",
    "MIMA", "PARA", "RANG", "GANG", "KAME", "PAKA", "NATB", "KAUN", "BAIR",
    "BTOD", "CHAN", "KTOD", "JOGE" ]

/-- The table `scale_names` (lines 81 to 134). -/
def scale_names : List String :=
  [ "User-defined 1", "User-defined 2", "User-defined 3", "User-defined 4",
    "Off ", "Semitone", "Ionian", "Dorian", "Phrygian", "Lydian",
    "Mixolydian", "Aeolian", "Locrian", "Blues major", "Blues minor",
    "Pentatonic maj", "Pentatonic min", "Folk", "Japanese", "Gamelan",
    "Gypsy", "Arabian", "Flamenco", "Whole tone", "Pythagorean", "EB/4",
    "E /4", "EA/4", "Bhairav", "Gunakri", "Marwa", "Shree [Camel]", "Purvi",
    "Bilawal", "Yaman", "Kafi", "Bhimpalasree", "Darbari", "Rageshree",
    "Khamaj", "Mimal", "Parameshwari", "Rangeshwari", "Gangeshwari",
    "Kameshwari", "Pa Khafi", "Natbhairav", "Malkauns", "Bairagi", "B Todi",
    "Chandradeep", "Kaushik Todi", "Jogeshwari" ]

/-- The note count of a scale is non-negative and at most `maxNotes`. The bound
is declared by the collaborator that owns `Scale`, outside the sources at hand,
and is a parameter here. -/
def Scale.inBounds (maxNotes : Int) (v : Scale) : Prop :=
  0 ≤ v.num_notes ∧ v.num_notes ≤ maxNotes

instance (maxNotes : Int) (v : Scale) : Decidable (Scale.inBounds maxNotes v) := by
  unfold Scale.inBounds
  infer_instance

/-- The storage location lies inside its array: `user_scales` has
`SCALE_USER_LAST` elements (line 6) and the preset table has the number of
entries that line 10 adds to `SCALE_USER_LAST`. -/
def Access.inBounds (cfg : Config) : Access → Prop
  | Access.user pos => 0 ≤ pos ∧ pos < (cfg.SCALE_USER_LAST : Int)
  | Access.preset pos => 0 ≤ pos ∧ pos < (cfg.scales.length : Int)

/-! ## Concrete configurations used to instantiate the theorems -/

/-- A sample scale. -/
def sampleScale (n : Int) : Scale := { num_notes := n, notes := [0, n] }

/-- A configuration with four user slots and three presets. -/
def cfgSmall : Config :=
  { SCALE_USER_LAST := 4, scales := [sampleScale 0, sampleScale 12, sampleScale 7] }

/-- A state of `cfgSmall` whose user slots hold arbitrary earlier content. -/
def stSmall : State :=
  { user_scales := [sampleScale 3, sampleScale 5, sampleScale 3, sampleScale 9],
    dummy_scale := sampleScale 1 }

/-- A configuration with four user slots and `n` presets, preset `k` having
`k` notes. -/
def cfgOfCount (n : Nat) : Config :=
  { SCALE_USER_LAST := 4, scales := (List.range n).map fun k => sampleScale (k : Int) }

/-- A state with four user slots. -/
def stFour : State :=
  { user_scales := [sampleScale 2, sampleScale 4, sampleScale 6, sampleScale 8],
    dummy_scale := sampleScale 1 }

/-! ## Auxiliary lemmas -/

theorem arrayAt_eq_some_iff (xs : List Scale) (pos : Int) (v : Scale) :
    arrayAt xs pos = some v ↔ 0 ≤ pos ∧ xs[pos.toNat]? = some v := by
  unfold arrayAt
  by_cases h : 0 ≤ pos <;> simp [h]

theorem arrayAt_isSome_iff (xs : List Scale) (pos : Int) :
    (arrayAt xs pos).isSome ↔ 0 ≤ pos ∧ pos < (xs.length : Int) := by
  unfold arrayAt
  by_cases h : 0 ≤ pos
  · simp only [h, if_true, true_and]
    rw [Option.isSome_iff_exists]
    constructor
    · rintro ⟨v, hv⟩
      have := (List.getElem?_eq_some_iff.mp hv).1
      omega
    · intro hlt
      have hn : pos.toNat < xs.length := by omega
      exact ⟨xs[pos.toNat], List.getElem?_eq_getElem hn⟩
  · simp [h]

theorem arrayAt_eq_none_iff (xs : List Scale) (pos : Int) :
    arrayAt xs pos = none ↔ pos < 0 ∨ (xs.length : Int) ≤ pos := by
  have h := arrayAt_isSome_iff xs pos
  cases hv : arrayAt xs pos with
  | none =>
    rw [hv] at h
    simp only [Option.isSome_none, Bool.false_eq_true, false_iff] at h
    simp only [true_iff]
    omega
  | some v =>
    rw [hv] at h
    simp only [Option.isSome_some, true_iff] at h
    simp only [false_iff, reduceCtorEq]
    omega

theorem arrayAt_natCast (xs : List Scale) (n : Nat) :
    arrayAt xs (n : Int) = xs[n]? := by
  unfold arrayAt
  simp

/-- The loop of `Init`, started at counter `i` on an array of the declared
dimension, leaves the first `i` elements alone and fills the rest with the
seed. -/
theorem Init.loop_eq (cfg : Config) (seed : Scale) (hseed : cfg.scales[1]? = some seed) :
    ∀ (n i : Nat) (us : List Scale), n = cfg.SCALE_USER_LAST - i → i ≤ cfg.SCALE_USER_LAST →
      us.length = cfg.SCALE_USER_LAST →
      Init.loop cfg i us = some (us.take i ++ List.replicate n seed) := by
  intro n
  induction n with
  | zero =>
    intro i us hn hi hlen
    have hi2 : ¬ i < cfg.SCALE_USER_LAST := by omega
    rw [Init.loop]
    have : List.take i us = us := List.take_of_length_le (by omega)
    simp [hi2, this]
  | succ n ih =>
    intro i us hn hi hlen
    have hi2 : i < cfg.SCALE_USER_LAST := by omega
    have hi3 : i < us.length := by omega
    rw [Init.loop]
    simp only [hi2, if_true, hseed, hi3]
    rw [ih (i + 1) (us.set i seed) (by omega) (by omega) (by simpa using hlen)]
    congr 1
    rw [List.replicate_succ, List.take_succ]
    simp only [List.getElem?_set, hi3, List.append_assoc]
    simp only [if_true, Option.toList_some, List.singleton_append]
    rw [List.set_take, List.set_eq_of_length_le (by simp)]

/-- Without an entry `braids::scales[1]` the first round of the loop reads
outside the preset table. -/
theorem Init.loop_eq_none (cfg : Config) (hseed : cfg.scales[1]? = none) (i : Nat)
    (us : List Scale) (hi : i < cfg.SCALE_USER_LAST) : Init.loop cfg i us = none := by
  rw [Init.loop]
  simp [hi, hseed]

/-- Closed form of `Init` on a well-formed state. -/
theorem Init_eq (cfg : Config) (s : State) (hs : s.WF cfg) (seed : Scale)
    (hseed : cfg.scales[1]? = some seed) :
    Init cfg s = some { user_scales := List.replicate cfg.SCALE_USER_LAST seed,
                        dummy_scale := s.dummy_scale } := by
  unfold Init
  rw [Init.loop_eq cfg seed hseed cfg.SCALE_USER_LAST 0 s.user_scales (by omega) (by omega) hs]
  simp

/-- Without user slots the loop of `Init` makes no round. -/
theorem Init_eq_of_no_user_slots (cfg : Config) (s : State)
    (h : cfg.SCALE_USER_LAST = 0) : Init cfg s = some s := by
  unfold Init
  rw [Init.loop]
  simp [h]

/-- With user slots and without an entry `braids::scales[1]`, `Init` reads
outside the preset table. -/
theorem Init_eq_none (cfg : Config) (s : State) (hU : 0 < cfg.SCALE_USER_LAST)
    (hP : cfg.scales.length ≤ 1) : Init cfg s = none := by
  unfold Init
  rw [Init.loop_eq_none cfg (List.getElem?_eq_none hP) 0 s.user_scales hU]

/-- Two indices that `GetScale` resolves to the same storage location are
equal. -/
theorem GetScale.access_injective (cfg : Config) (i j : Int)
    (h : GetScale.access cfg i = GetScale.access cfg j) : i = j := by
  unfold GetScale.access at h
  by_cases hi : i < (cfg.SCALE_USER_LAST : Int) <;>
    by_cases hj : j < (cfg.SCALE_USER_LAST : Int) <;>
    simp only [hi, hj, if_true, if_false, Access.user.injEq, Access.preset.injEq,
      reduceCtorEq] at h
  · exact h
  · omega

theorem GetScale_user (cfg : Config) (s : State) (i : Int) (h : i < (cfg.SCALE_USER_LAST : Int)) :
    GetScale cfg s i = arrayAt s.user_scales i := by
  simp [GetScale, GetScale.access, h, Access.read]

theorem GetScale_preset (cfg : Config) (s : State) (i : Int)
    (h : (cfg.SCALE_USER_LAST : Int) ≤ i) :
    GetScale cfg s i = arrayAt cfg.scales (i - (cfg.SCALE_USER_LAST : Int)) := by
  have h2 : ¬ i < (cfg.SCALE_USER_LAST : Int) := by omega
  simp [GetScale, GetScale.access, h2, Access.read]

/-- The first four short names have five characters. -/
theorem short_names_user_width :
    ∀ n ∈ scale_names_short.take 4, n.length = 5 := by
  decide

/-- The short names from index 4 on have four characters. -/
theorem short_names_preset_width :
    ∀ n ∈ scale_names_short.drop 4, n.length = 4 := by
  decide

/-! ## C1: the two branches of `GetScale` -/

/-- C1. For every integer index, `GetScale` takes the user branch exactly when
`index < SCALE_USER_LAST`, and then yields the content of user slot `index`;
otherwise it yields the entry of the preset table at `index - SCALE_USER_LAST`.
In particular, in a state whose user array has its declared dimension, every
`index` in `[0, SCALE_USER_LAST)` yields the current user slot `index`, and
every `index` in `[SCALE_USER_LAST, NUM_SCALES)` yields the preset at position
`index - SCALE_USER_LAST`. -/
theorem GetScale_branch_contract (cfg : Config) (s : State) (index : Int) :
    (GetScale.access cfg index = Access.user index ↔ index < (cfg.SCALE_USER_LAST : Int)) ∧
    (GetScale.access cfg index = Access.preset (index - (cfg.SCALE_USER_LAST : Int)) ↔
      ¬ index < (cfg.SCALE_USER_LAST : Int)) ∧
    (index < (cfg.SCALE_USER_LAST : Int) → GetScale cfg s index = arrayAt s.user_scales index) ∧
    (¬ index < (cfg.SCALE_USER_LAST : Int) →
      GetScale cfg s index = arrayAt cfg.scales (index - (cfg.SCALE_USER_LAST : Int))) ∧
    (s.WF cfg → 0 ≤ index → index < (cfg.SCALE_USER_LAST : Int) →
      ∃ v, s.user_scales[index.toNat]? = some v ∧ GetScale cfg s index = some v) ∧
    ((cfg.SCALE_USER_LAST : Int) ≤ index → index < NUM_SCALES cfg →
      ∃ v, cfg.scales[(index - (cfg.SCALE_USER_LAST : Int)).toNat]? = some v ∧
        GetScale cfg s index = some v) := by
  refine ⟨?_, ?_, ?_, ?_, ?_, ?_⟩
  · unfold GetScale.access
    by_cases h : index < (cfg.SCALE_USER_LAST : Int) <;> simp [h]
  · unfold GetScale.access
    by_cases h : index < (cfg.SCALE_USER_LAST : Int) <;> simp [h]
  · exact GetScale_user cfg s index
  · intro h
    exact GetScale_preset cfg s index (by omega)
  · intro hs h0 h1
    have hn : index.toNat < s.user_scales.length := by
      unfold State.WF at hs
      omega
    refine ⟨s.user_scales[index.toNat], List.getElem?_eq_getElem hn, ?_⟩
    rw [GetScale_user cfg s index h1, arrayAt_eq_some_iff]
    exact ⟨h0, List.getElem?_eq_getElem hn⟩
  · intro h0 h1
    have hn : (index - (cfg.SCALE_USER_LAST : Int)).toNat < cfg.scales.length := by
      unfold NUM_SCALES at h1
      omega
    refine ⟨cfg.scales[(index - (cfg.SCALE_USER_LAST : Int)).toNat],
      List.getElem?_eq_getElem hn, ?_⟩
    rw [GetScale_preset cfg s index h0, arrayAt_eq_some_iff]
    exact ⟨by omega, List.getElem?_eq_getElem hn⟩

/-- Instance of C1 in `cfgSmall`: index 2 reads user slot 2 and index 5 reads
preset 1. -/
theorem GetScale_branch_contract_witness :
    (stSmall.WF cfgSmall ∧ (0 : Int) ≤ 2 ∧ (2 : Int) < (cfgSmall.SCALE_USER_LAST : Int) ∧
      ∃ v, stSmall.user_scales[(2 : Int).toNat]? = some v ∧
        GetScale cfgSmall stSmall 2 = some v) ∧
    ((cfgSmall.SCALE_USER_LAST : Int) ≤ 5 ∧ (5 : Int) < NUM_SCALES cfgSmall ∧
      ∃ v, cfgSmall.scales[((5 : Int) - (cfgSmall.SCALE_USER_LAST : Int)).toNat]? = some v ∧
        GetScale cfgSmall stSmall 5 = some v) :=
  ⟨⟨by decide, by decide, by decide,
      (GetScale_branch_contract cfgSmall stSmall 2).2.2.2.2.1 (by decide) (by decide) (by decide)⟩,
    ⟨by decide, by decide,
      (GetScale_branch_contract cfgSmall stSmall 5).2.2.2.2.2 (by decide) (by decide)⟩⟩

/-! ## C2: `Init` seeds every user slot -/

/-- C2. For every prior state of the declared shape, whatever its user slots
held, and with `seed` the preset at index 1 (`braids::scales[1]`): `Init`
returns, the user array afterwards consists of `SCALE_USER_LAST` copies of
`seed` (no slot keeps old or partial content), and `GetScale i` is `seed` for
every `i` in `[0, SCALE_USER_LAST)`. -/
theorem Init_seeds_user_slots (cfg : Config) (s : State) (hs : s.WF cfg) (seed : Scale)
    (hseed : cfg.scales[1]? = some seed) :
    ∃ s', Init cfg s = some s' ∧ s'.WF cfg ∧
      s'.user_scales = List.replicate cfg.SCALE_USER_LAST seed ∧
      ∀ i : Int, 0 ≤ i → i < (cfg.SCALE_USER_LAST : Int) → GetScale cfg s' i = some seed := by
  refine ⟨_, Init_eq cfg s hs seed hseed, ?_, rfl, ?_⟩
  · simp [State.WF]
  · intro i h0 h1
    rw [GetScale_user cfg _ i h1, arrayAt_eq_some_iff]
    refine ⟨h0, ?_⟩
    have hn : i.toNat < cfg.SCALE_USER_LAST := by omega
    simp [List.getElem?_replicate, hn]

/-- Instance of C2 in `cfgSmall`, from the state `stSmall`. -/
theorem Init_seeds_user_slots_witness :
    stSmall.WF cfgSmall ∧ cfgSmall.scales[1]? = some (sampleScale 12) ∧
    ∃ s', Init cfgSmall stSmall = some s' ∧ s'.WF cfgSmall ∧
      s'.user_scales = List.replicate cfgSmall.SCALE_USER_LAST (sampleScale 12) ∧
      ∀ i : Int, 0 ≤ i → i < (cfgSmall.SCALE_USER_LAST : Int) →
        GetScale cfgSmall s' i = some (sampleScale 12) :=
  ⟨by decide, by decide,
    Init_seeds_user_slots cfgSmall stSmall (by decide) (sampleScale 12) (by decide)⟩

/-! ## C3: `Init` leaves the preset region alone -/

/-- C3. `Init` changes only the user-slot region. For every state of the
declared shape (and a preset table that has the entry 1 which `Init` reads),
`Init` returns a state in which `dummy_scale` is unchanged and, for every `i`
in `[SCALE_USER_LAST, NUM_SCALES)`, `GetScale i` is the same as before `Init`,
namely the preset at position `i - SCALE_USER_LAST`. The preset table,
`NUM_SCALES` and the two name tables are constants that do not depend on the
state, so they are the same before and after. -/
theorem Init_preserves_preset_region (cfg : Config) (s : State) (hs : s.WF cfg)
    (h1 : 1 < cfg.scales.length) :
    ∃ s', Init cfg s = some s' ∧ s'.dummy_scale = s.dummy_scale ∧
      ∀ i : Int, (cfg.SCALE_USER_LAST : Int) ≤ i → i < NUM_SCALES cfg →
        ∃ v, cfg.scales[(i - (cfg.SCALE_USER_LAST : Int)).toNat]? = some v ∧
          GetScale cfg s' i = some v ∧ GetScale cfg s i = some v := by
  refine ⟨_, Init_eq cfg s hs cfg.scales[1] (List.getElem?_eq_getElem h1), rfl, ?_⟩
  intro i h0 hN
  have hn : (i - (cfg.SCALE_USER_LAST : Int)).toNat < cfg.scales.length := by
    unfold NUM_SCALES at hN
    omega
  refine ⟨cfg.scales[(i - (cfg.SCALE_USER_LAST : Int)).toNat],
    List.getElem?_eq_getElem hn, ?_, ?_⟩
  · rw [GetScale_preset cfg _ i h0, arrayAt_eq_some_iff]
    exact ⟨by omega, List.getElem?_eq_getElem hn⟩
  · rw [GetScale_preset cfg _ i h0, arrayAt_eq_some_iff]
    exact ⟨by omega, List.getElem?_eq_getElem hn⟩

/-- Instance of C3 in `cfgSmall`, from the state `stSmall`. -/
theorem Init_preserves_preset_region_witness :
    stSmall.WF cfgSmall ∧ 1 < cfgSmall.scales.length ∧
    ∃ s', Init cfgSmall stSmall = some s' ∧ s'.dummy_scale = stSmall.dummy_scale ∧
      ∀ i : Int, (cfgSmall.SCALE_USER_LAST : Int) ≤ i → i < NUM_SCALES cfgSmall →
        ∃ v, cfgSmall.scales[(i - (cfgSmall.SCALE_USER_LAST : Int)).toNat]? = some v ∧
          GetScale cfgSmall s' i = some v ∧ GetScale cfgSmall stSmall i = some v :=
  ⟨by decide, by decide, Init_preserves_preset_region cfgSmall stSmall (by decide) (by decide)⟩

/-! ## C4: `Init` is idempotent and discards edits -/

/-- C4. For every state `s` of the declared shape (and a preset table that has
the entry 1), `Init` returns a state `s1` with `Init s1 = s1`; and for every
user index `i < SCALE_USER_LAST` and every scale `v`, overwriting user slot `i`
of `s1` with `v` and running `Init` again gives `s1` back, a state in which
every user slot reads as the seed preset. -/
theorem Init_idempotent_discards_edits (cfg : Config) (s : State) (hs : s.WF cfg)
    (h1 : 1 < cfg.scales.length) :
    ∃ s1, Init cfg s = some s1 ∧ Init cfg s1 = some s1 ∧
      (∀ j : Int, 0 ≤ j → j < (cfg.SCALE_USER_LAST : Int) →
        GetScale cfg s1 j = cfg.scales[1]?) ∧
      ∀ (i : Nat) (v : Scale), i < cfg.SCALE_USER_LAST →
        ∃ s2, storeUserScale s1 i v = some s2 ∧ Init cfg s2 = some s1 := by
  have hseed : cfg.scales[1]? = some cfg.scales[1] := List.getElem?_eq_getElem h1
  refine ⟨_, Init_eq cfg s hs cfg.scales[1] hseed, ?_, ?_, ?_⟩
  · exact Init_eq cfg _ (by simp [State.WF]) cfg.scales[1] hseed
  · intro j h0 hj
    rw [GetScale_user cfg _ j hj, hseed, arrayAt_eq_some_iff]
    refine ⟨h0, ?_⟩
    have hn : j.toNat < cfg.SCALE_USER_LAST := by omega
    simp [List.getElem?_replicate, hn]
  · intro i v hi
    refine ⟨{ user_scales := (List.replicate cfg.SCALE_USER_LAST cfg.scales[1]).set i v,
              dummy_scale := s.dummy_scale }, ?_, ?_⟩
    · simp [storeUserScale, hi]
    · exact Init_eq cfg _ (by simp [State.WF]) cfg.scales[1] hseed

/-- Instance of C4 in `cfgSmall`, from the state `stSmall`. -/
theorem Init_idempotent_discards_edits_witness :
    stSmall.WF cfgSmall ∧ 1 < cfgSmall.scales.length ∧
    ∃ s1, Init cfgSmall stSmall = some s1 ∧ Init cfgSmall s1 = some s1 ∧
      (∀ j : Int, 0 ≤ j → j < (cfgSmall.SCALE_USER_LAST : Int) →
        GetScale cfgSmall s1 j = cfgSmall.scales[1]?) ∧
      ∀ (i : Nat) (v : Scale), i < cfgSmall.SCALE_USER_LAST →
        ∃ s2, storeUserScale s1 i v = some s2 ∧ Init cfgSmall s2 = some s1 :=
  ⟨by decide, by decide, Init_idempotent_discards_edits cfgSmall stSmall (by decide) (by decide)⟩

/-! ## C5: a store to a user slot is seen at that index only -/

/-- C5. For every state of the declared shape, every `i` in
`[0, SCALE_USER_LAST)` and every scale `v`, the store `user_scales[i] = v`
succeeds, afterwards `GetScale i` is `v`, and `GetScale j` is what it was
before the store for every index `j` other than `i` (in particular for every
such `j` in `[0, NUM_SCALES)`). -/
theorem store_visible_only_at_index (cfg : Config) (s : State) (hs : s.WF cfg) (i : Nat)
    (hi : i < cfg.SCALE_USER_LAST) (v : Scale) :
    ∃ s', storeUserScale s i v = some s' ∧ s'.WF cfg ∧
      GetScale cfg s' (i : Int) = some v ∧
      ∀ j : Int, j ≠ (i : Int) → GetScale cfg s' j = GetScale cfg s j := by
  have hlen : i < s.user_scales.length := by
    unfold State.WF at hs
    omega
  refine ⟨{ s with user_scales := s.user_scales.set i v }, ?_, ?_, ?_, ?_⟩
  · simp [storeUserScale, hlen]
  · simpa [State.WF] using hs
  · rw [GetScale_user cfg _ (i : Int) (by omega), arrayAt_natCast]
    simp [List.getElem?_set, hlen]
  · intro j hj
    by_cases hju : j < (cfg.SCALE_USER_LAST : Int)
    · rw [GetScale_user cfg _ j hju, GetScale_user cfg _ j hju]
      unfold arrayAt
      by_cases h0 : 0 ≤ j
      · have hne : i ≠ j.toNat := by omega
        simp [h0, List.getElem?_set, hne]
      · simp [h0]
    · rw [GetScale_preset cfg _ j (by omega), GetScale_preset cfg _ j (by omega)]

/-- Instance of C5 in `cfgSmall`: a store to user slot 2 of `stSmall`. -/
theorem store_visible_only_at_index_witness :
    stSmall.WF cfgSmall ∧ 2 < cfgSmall.SCALE_USER_LAST ∧
    ∃ s', storeUserScale stSmall 2 (sampleScale 11) = some s' ∧ s'.WF cfgSmall ∧
      GetScale cfgSmall s' ((2 : Nat) : Int) = some (sampleScale 11) ∧
      ∀ j : Int, j ≠ ((2 : Nat) : Int) → GetScale cfgSmall s' j = GetScale cfgSmall stSmall j :=
  ⟨by decide, by decide,
    store_visible_only_at_index cfgSmall stSmall (by decide) 2 (by decide) (sampleScale 11)⟩

/-! ## C6: in-range lookups are in bounds -/

/-- C6. In a state of the declared shape, for every `i` in `[0, NUM_SCALES)`
with `NUM_SCALES = SCALE_USER_LAST + (number of presets)`, `GetScale i` returns
a value: the position it indexes is inside `user_scales` on the user branch and
inside the preset table on the preset branch. Moreover, when every preset has a
note count in `[0, maxNotes]`, so has the value returned for a preset index,
and, after `Init` (which returns when the preset table has the entry 1), so has
the value returned for every index `i` in range, user slots included. -/
theorem GetScale_in_range_total (cfg : Config) (s : State) (hs : s.WF cfg) (i : Int)
    (h0 : 0 ≤ i) (hN : i < NUM_SCALES cfg) :
    (∃ v, GetScale cfg s i = some v) ∧
    ((GetScale.access cfg i = Access.user i ∧ i.toNat < s.user_scales.length) ∨
      (GetScale.access cfg i = Access.preset (i - (cfg.SCALE_USER_LAST : Int)) ∧
        0 ≤ i - (cfg.SCALE_USER_LAST : Int) ∧
        (i - (cfg.SCALE_USER_LAST : Int)).toNat < cfg.scales.length)) ∧
    ∀ maxNotes : Int, (∀ p ∈ cfg.scales, p.inBounds maxNotes) →
      ((cfg.SCALE_USER_LAST : Int) ≤ i →
        ∃ v, GetScale cfg s i = some v ∧ v.inBounds maxNotes) ∧
      (1 < cfg.scales.length →
        ∃ s' v, Init cfg s = some s' ∧ GetScale cfg s' i = some v ∧ v.inBounds maxNotes) := by
  have hlen : s.user_scales.length = cfg.SCALE_USER_LAST := hs
  unfold NUM_SCALES at hN
  by_cases hu : i < (cfg.SCALE_USER_LAST : Int)
  · have hn : i.toNat < s.user_scales.length := by omega
    have hget : GetScale cfg s i = some s.user_scales[i.toNat] := by
      rw [GetScale_user cfg s i hu, arrayAt_eq_some_iff]
      exact ⟨h0, List.getElem?_eq_getElem hn⟩
    refine ⟨⟨_, hget⟩, Or.inl ⟨?_, hn⟩, ?_⟩
    · simp [GetScale.access, hu]
    · intro maxNotes hb
      refine ⟨fun h => absurd hu (by omega), ?_⟩
      intro h1
      have hseed : cfg.scales[1]? = some cfg.scales[1] := List.getElem?_eq_getElem h1
      refine ⟨_, cfg.scales[1], Init_eq cfg s hs cfg.scales[1] hseed, ?_,
        hb _ (List.getElem_mem h1)⟩
      rw [GetScale_user cfg _ i hu, arrayAt_eq_some_iff]
      refine ⟨h0, ?_⟩
      have hn2 : i.toNat < cfg.SCALE_USER_LAST := by omega
      simp [List.getElem?_replicate, hn2]
  · have hn : (i - (cfg.SCALE_USER_LAST : Int)).toNat < cfg.scales.length := by omega
    have hget : ∀ st : State,
        GetScale cfg st i = some cfg.scales[(i - (cfg.SCALE_USER_LAST : Int)).toNat] := by
      intro st
      rw [GetScale_preset cfg st i (by omega), arrayAt_eq_some_iff]
      exact ⟨by omega, List.getElem?_eq_getElem hn⟩
    refine ⟨⟨_, hget s⟩, Or.inr ⟨?_, by omega, hn⟩, ?_⟩
    · simp [GetScale.access, hu]
    · intro maxNotes hb
      refine ⟨fun _ => ⟨_, hget s, hb _ (List.getElem_mem hn)⟩, ?_⟩
      intro h1
      have hseed : cfg.scales[1]? = some cfg.scales[1] := List.getElem?_eq_getElem h1
      exact ⟨_, _, Init_eq cfg s hs cfg.scales[1] hseed, hget _, hb _ (List.getElem_mem hn)⟩

/-- Instance of C6 in `cfgSmall`: index 1 of the state `stSmall`, with note
counts bounded by 12. -/
theorem GetScale_in_range_total_witness :
    stSmall.WF cfgSmall ∧ (0 : Int) ≤ 1 ∧ (1 : Int) < NUM_SCALES cfgSmall ∧
    (∀ p ∈ cfgSmall.scales, p.inBounds 12) ∧ 1 < cfgSmall.scales.length ∧
    (∃ v, GetScale cfgSmall stSmall 1 = some v) ∧
    ∃ s' v, Init cfgSmall stSmall = some s' ∧ GetScale cfgSmall s' 1 = some v ∧
      v.inBounds 12 :=
  ⟨by decide, by decide, by decide, by decide, by decide,
    (GetScale_in_range_total cfgSmall stSmall (by decide) 1 (by decide) (by decide)).1,
    ((GetScale_in_range_total cfgSmall stSmall (by decide) 1 (by decide) (by decide)).2.2
      12 (by decide)).2 (by decide)⟩

/-! ## C8: the scenario with four user slots and 52 presets -/

/-- C8. With `SCALE_USER_LAST = 4` and a preset table of 52 entries,
`NUM_SCALES` is 56; `GetScale 4` is preset 0 in every state, in particular in
the state `Init` returns; and `scale_names_short[4]` is the string `"OFF "`,
the letters O, F, F followed by one space. -/
theorem scenario_four_user_52_presets (cfg : Config) (hU : cfg.SCALE_USER_LAST = 4)
    (hP : cfg.scales.length = 52) :
    NUM_SCALES cfg = 56 ∧
    (∃ v, cfg.scales[0]? = some v ∧ (∀ s : State, GetScale cfg s 4 = some v) ∧
      ∀ s : State, s.WF cfg → ∃ s', Init cfg s = some s' ∧ GetScale cfg s' 4 = some v) ∧
    scale_names_short[4]? = some "OFF " ∧ "OFF ".toList = ['O', 'F', 'F', ' '] := by
  have h0 : 0 < cfg.scales.length := by omega
  have h1 : 1 < cfg.scales.length := by omega
  have hget : ∀ s : State, GetScale cfg s 4 = some cfg.scales[0] := by
    intro s
    rw [GetScale_preset cfg s 4 (by omega), arrayAt_eq_some_iff, hU]
    exact ⟨by decide, List.getElem?_eq_getElem h0⟩
  refine ⟨?_, ⟨cfg.scales[0], List.getElem?_eq_getElem h0, hget, ?_⟩, by decide, by decide⟩
  · unfold NUM_SCALES
    omega
  · intro s hs
    exact ⟨_, Init_eq cfg s hs cfg.scales[1] (List.getElem?_eq_getElem h1), hget _⟩

/-- Instance of C8: the configuration `cfgOfCount 52`. -/
theorem scenario_four_user_52_presets_witness :
    (cfgOfCount 52).SCALE_USER_LAST = 4 ∧ (cfgOfCount 52).scales.length = 52 ∧
    NUM_SCALES (cfgOfCount 52) = 56 ∧
    (∃ v, (cfgOfCount 52).scales[0]? = some v ∧
      (∀ s : State, GetScale (cfgOfCount 52) s 4 = some v) ∧
      ∀ s : State, s.WF (cfgOfCount 52) →
        ∃ s', Init (cfgOfCount 52) s = some s' ∧ GetScale (cfgOfCount 52) s' 4 = some v) ∧
    scale_names_short[4]? = some "OFF " ∧ "OFF ".toList = ['O', 'F', 'F', ' '] :=
  ⟨by decide, by decide, scenario_four_user_52_presets (cfgOfCount 52) (by decide) (by decide)⟩

/-! ## C9: the width of the short names -/

/-- C9, as stated, fails at index 0: the entry `"USER1"` of `scale_names_short`
has five characters, so not every entry has at most four, and the entries do
not all have the same width (entry 4, `"OFF "`, has four). -/
theorem short_names_width_counterexample :
    scale_names_short[0]? = some "USER1" ∧ "USER1".length = 5 ∧
    scale_names_short[4]? = some "OFF " ∧ "OFF ".length = 4 ∧
    ¬ (∀ k : Nat, ∀ n : String, scale_names_short[k]? = some n → n.length ≤ 4) := by
  refine ⟨by decide, by decide, by decide, by decide, ?_⟩
  intro h
  exact absurd (h 0 "USER1" (by decide)) (by decide)

/-- C9, amended. Every entry of `scale_names_short` at an index `k ≥ 4` (the
preset names) has exactly four characters, every entry at an index `k < 4`
(the names `USER1` to `USER4`) has exactly five, and so every entry has at most
five characters. -/
theorem short_names_width (k : Nat) (n : String) (h : scale_names_short[k]? = some n) :
    (4 ≤ k → n.length = 4) ∧ (k < 4 → n.length = 5) ∧ n.length ≤ 5 := by
  have hA : 4 ≤ k → n.length = 4 := by
    intro hk
    apply short_names_preset_width
    have h2 : (scale_names_short.drop 4)[k - 4]? = some n := by
      rw [List.getElem?_drop]
      have : 4 + (k - 4) = k := by omega
      rw [this]
      exact h
    exact List.getElem?_mem h2
  have hB : k < 4 → n.length = 5 := by
    intro hk
    apply short_names_user_width
    have h2 : (scale_names_short.take 4)[k]? = some n := by
      rw [List.getElem?_take_of_lt hk]
      exact h
    exact List.getElem?_mem h2
  refine ⟨hA, hB, ?_⟩
  by_cases hk : k < 4
  · rw [hB hk]
  · rw [hA (by omega)]
    decide

/-- Instance of the amended C9 at index 5, the entry `"SEMI"`. -/
theorem short_names_width_witness :
    scale_names_short[5]? = some "SEMI" ∧ "SEMI".length = 4 ∧ "SEMI".length ≤ 5 :=
  ⟨by decide, (short_names_width 5 "SEMI" (by decide)).1 (by decide),
    (short_names_width 5 "SEMI" (by decide)).2.2⟩

/-! ## C10: out-of-range indices are not detected -/

/-- C10. `GetScale` neither detects nor reports an index outside the catalogue.
For every `index < 0` it takes the user branch and indexes `user_scales` at the
negative position `index`; for every `index ≥ NUM_SCALES` it takes the preset
branch and indexes the preset table at `index - SCALE_USER_LAST`, which is at
least the number of presets. In both cases the access is outside the array and
the result is undefined (`none`): no clamped entry, no sentinel such as
`dummy_scale`, no error value. In a state of the declared shape the access is
in bounds if and only if `0 ≤ index < NUM_SCALES`. -/
theorem GetScale_out_of_range (cfg : Config) (s : State) (index : Int) :
    (index < 0 → GetScale.access cfg index = Access.user index ∧
      GetScale cfg s index = none) ∧
    (NUM_SCALES cfg ≤ index →
      GetScale.access cfg index = Access.preset (index - (cfg.SCALE_USER_LAST : Int)) ∧
      (cfg.scales.length : Int) ≤ index - (cfg.SCALE_USER_LAST : Int) ∧
      GetScale cfg s index = none) ∧
    (s.WF cfg → ((GetScale cfg s index).isSome ↔ 0 ≤ index ∧ index < NUM_SCALES cfg)) := by
  unfold NUM_SCALES
  refine ⟨?_, ?_, ?_⟩
  · intro hneg
    have hu : index < (cfg.SCALE_USER_LAST : Int) := by omega
    refine ⟨by simp [GetScale.access, hu], ?_⟩
    rw [GetScale_user cfg s index hu, arrayAt_eq_none_iff]
    exact Or.inl hneg
  · intro hge
    have hu : ¬ index < (cfg.SCALE_USER_LAST : Int) := by omega
    refine ⟨by simp [GetScale.access, hu], by omega, ?_⟩
    rw [GetScale_preset cfg s index (by omega), arrayAt_eq_none_iff]
    exact Or.inr (by omega)
  · intro hs
    have hlen : s.user_scales.length = cfg.SCALE_USER_LAST := hs
    by_cases hu : index < (cfg.SCALE_USER_LAST : Int)
    · rw [GetScale_user cfg s index hu, arrayAt_isSome_iff]
      omega
    · rw [GetScale_preset cfg s index (by omega), arrayAt_isSome_iff]
      omega

/-- Instance of C10 in `cfgSmall` (seven catalogue entries): the indices -1 and
7 are read outside the arrays, and index 6 is read inside. -/
theorem GetScale_out_of_range_witness :
    ((-1 : Int) < 0 ∧ GetScale.access cfgSmall (-1) = Access.user (-1) ∧
      GetScale cfgSmall stSmall (-1) = none) ∧
    (NUM_SCALES cfgSmall ≤ 7 ∧ GetScale.access cfgSmall 7 = Access.preset 3 ∧
      GetScale cfgSmall stSmall 7 = none) ∧
    (stSmall.WF cfgSmall ∧ (0 : Int) ≤ 6 ∧ (6 : Int) < NUM_SCALES cfgSmall ∧
      (GetScale cfgSmall stSmall 6).isSome) :=
  ⟨⟨by decide, (GetScale_out_of_range cfgSmall stSmall (-1)).1 (by decide)⟩,
    ⟨by decide, ((GetScale_out_of_range cfgSmall stSmall 7).2.1 (by decide)).1,
      ((GetScale_out_of_range cfgSmall stSmall 7).2.1 (by decide)).2.2⟩,
    ⟨by decide, by decide, by decide,
      ((GetScale_out_of_range cfgSmall stSmall 6).2.2 (by decide)).mpr ⟨by decide, by decide⟩⟩⟩

/-! ## C11: when `Init` completes -/

/-- C11, as stated, fails for a preset table with a single entry: with four
user slots, the first round of the loop reads `braids::scales[1]` outside the
table, so `Init` has no defined result. -/
theorem Init_completes_counterexample :
    stFour.WF (cfgOfCount 1) ∧ (cfgOfCount 1).scales.length = 1 ∧
    (cfgOfCount 1).scales[1]? = none ∧ Init (cfgOfCount 1) stFour = none :=
  ⟨by decide, by decide, by decide, Init_eq_none (cfgOfCount 1) stFour (by decide) (by decide)⟩

/-- C11, amended. From every state of the declared shape, `Init` completes,
with every access in bounds, exactly when there is no user slot or the preset
table has at least two entries (so that `braids::scales[1]` exists). With at
least two presets it completes whatever the state held, so no write to
`user_scales[i]`, `i` in `[0, SCALE_USER_LAST)`, is outside the array, and the
array keeps its dimension. With a user slot and fewer than two presets the read
of `braids::scales[1]` is outside the table. -/
theorem Init_completes_iff (cfg : Config) (s : State) (hs : s.WF cfg) :
    ((∃ s', Init cfg s = some s') ↔ (cfg.SCALE_USER_LAST = 0 ∨ 1 < cfg.scales.length)) ∧
    (1 < cfg.scales.length → ∃ s', Init cfg s = some s' ∧ s'.WF cfg) ∧
    (0 < cfg.SCALE_USER_LAST → cfg.scales.length ≤ 1 →
      cfg.scales[1]? = none ∧ Init cfg s = none) := by
  have hsome : 1 < cfg.scales.length → ∃ s', Init cfg s = some s' ∧ s'.WF cfg := by
    intro h1
    refine ⟨_, Init_eq cfg s hs cfg.scales[1] (List.getElem?_eq_getElem h1), ?_⟩
    simp [State.WF]
  refine ⟨⟨?_, ?_⟩, hsome, ?_⟩
  · rintro ⟨s', hs'⟩
    by_cases hU : cfg.SCALE_USER_LAST = 0
    · exact Or.inl hU
    · by_cases hP : 1 < cfg.scales.length
      · exact Or.inr hP
      · rw [Init_eq_none cfg s (by omega) (by omega)] at hs'
        exact absurd hs' (by simp)
  · rintro (hU | hP)
    · exact ⟨s, Init_eq_of_no_user_slots cfg s hU⟩
    · obtain ⟨s', h, _⟩ := hsome hP
      exact ⟨s', h⟩
  · intro hU hP
    exact ⟨List.getElem?_eq_none hP, Init_eq_none cfg s hU hP⟩

/-- Instance of the amended C11 in `cfgSmall` (three presets), from `stSmall`. -/
theorem Init_completes_iff_witness :
    stSmall.WF cfgSmall ∧ 1 < cfgSmall.scales.length ∧
    ∃ s', Init cfgSmall stSmall = some s' ∧ s'.WF cfgSmall :=
  ⟨by decide, by decide, (Init_completes_iff cfgSmall stSmall (by decide)).2.1 (by decide)⟩

/-! ## C12: the index space is partitioned without aliasing -/

/-- C12. The classification used by `GetScale` (user slot `index` when
`index < SCALE_USER_LAST`, preset position `index - SCALE_USER_LAST` otherwise)
is a bijection from `[0, NUM_SCALES)` onto the storage locations that lie inside
their array, i.e. the user slots `[0, SCALE_USER_LAST)` together with the preset
positions `[0, preset count)`. Two distinct in-range indices never resolve to
the same location, each user slot and each preset position is reached by
exactly one in-range index, and no user slot is a preset position. -/
theorem GetScale_access_bijection (cfg : Config) :
    Set.BijOn (GetScale.access cfg) (Set.Ico 0 (NUM_SCALES cfg))
      {a | Access.inBounds cfg a} ∧
    (∀ i j : Int, 0 ≤ i → i < NUM_SCALES cfg → 0 ≤ j → j < NUM_SCALES cfg → i ≠ j →
      GetScale.access cfg i ≠ GetScale.access cfg j) ∧
    (∀ p : Int, 0 ≤ p → p < (cfg.SCALE_USER_LAST : Int) →
      ∃! i : Int, (0 ≤ i ∧ i < NUM_SCALES cfg) ∧ GetScale.access cfg i = Access.user p) ∧
    (∀ p : Int, 0 ≤ p → p < (cfg.scales.length : Int) →
      ∃! i : Int, (0 ≤ i ∧ i < NUM_SCALES cfg) ∧ GetScale.access cfg i = Access.preset p) ∧
    (∀ p q : Int, Access.user p ≠ Access.preset q) := by
  have huser : ∀ p : Int, p < (cfg.SCALE_USER_LAST : Int) →
      GetScale.access cfg p = Access.user p := by
    intro p hp
    simp [GetScale.access, hp]
  have hpreset : ∀ p : Int, 0 ≤ p →
      GetScale.access cfg (p + (cfg.SCALE_USER_LAST : Int)) = Access.preset p := by
    intro p hp
    have h : ¬ p + (cfg.SCALE_USER_LAST : Int) < (cfg.SCALE_USER_LAST : Int) := by omega
    simp [GetScale.access, h]
  refine ⟨⟨?_, ?_, ?_⟩, ?_, ?_, ?_, ?_⟩
  · intro i hi
    obtain ⟨h0, hN⟩ := hi
    unfold NUM_SCALES at hN
    show Access.inBounds cfg (GetScale.access cfg i)
    by_cases hu : i < (cfg.SCALE_USER_LAST : Int)
    · rw [huser i hu]
      exact ⟨h0, hu⟩
    · have hacc : GetScale.access cfg i = Access.preset (i - (cfg.SCALE_USER_LAST : Int)) := by
        simp [GetScale.access, hu]
      rw [hacc]
      exact ⟨by omega, by omega⟩
  · intro i _ j _ h
    exact GetScale.access_injective cfg i j h
  · intro a ha
    cases a with
    | user p =>
      have hp : 0 ≤ p ∧ p < (cfg.SCALE_USER_LAST : Int) := ha
      refine ⟨p, ⟨hp.1, ?_⟩, huser p hp.2⟩
      unfold NUM_SCALES
      omega
    | preset p =>
      have hp : 0 ≤ p ∧ p < (cfg.scales.length : Int) := ha
      refine ⟨p + (cfg.SCALE_USER_LAST : Int), ⟨by omega, ?_⟩, hpreset p hp.1⟩
      unfold NUM_SCALES
      omega
  · intro i j _ _ _ _ hne h
    exact hne (GetScale.access_injective cfg i j h)
  · intro p h0 hp
    refine ⟨p, ⟨⟨h0, ?_⟩, huser p hp⟩, ?_⟩
    · unfold NUM_SCALES
      omega
    · rintro j ⟨_, hj⟩
      exact GetScale.access_injective cfg j p (by rw [hj, huser p hp])
  · intro p h0 hp
    refine ⟨p + (cfg.SCALE_USER_LAST : Int), ⟨⟨by omega, ?_⟩, hpreset p h0⟩, ?_⟩
    · unfold NUM_SCALES
      omega
    · rintro j ⟨_, hj⟩
      exact GetScale.access_injective cfg j _ (by rw [hj, hpreset p h0])
  · intro p q h
    exact Access.noConfusion h

/-- Instance of C12 in `cfgSmall` (four user slots, three presets): preset
position 2 is reached by exactly one index of `[0, 7)`, user slot 3 likewise,
and the indices 3 and 4 resolve to different locations. -/
theorem GetScale_access_bijection_witness :
    ((0 : Int) ≤ 2 ∧ (2 : Int) < (cfgSmall.scales.length : Int) ∧
      ∃! i : Int, (0 ≤ i ∧ i < NUM_SCALES cfgSmall) ∧
        GetScale.access cfgSmall i = Access.preset 2) ∧
    ((0 : Int) ≤ 3 ∧ (3 : Int) < (cfgSmall.SCALE_USER_LAST : Int) ∧
      ∃! i : Int, (0 ≤ i ∧ i < NUM_SCALES cfgSmall) ∧
        GetScale.access cfgSmall i = Access.user 3) ∧
    ((3 : Int) < NUM_SCALES cfgSmall ∧ (4 : Int) < NUM_SCALES cfgSmall ∧
      GetScale.access cfgSmall 3 ≠ GetScale.access cfgSmall 4) :=
  ⟨⟨by decide, by decide,
      (GetScale_access_bijection cfgSmall).2.2.2.1 2 (by decide) (by decide)⟩,
    ⟨by decide, by decide,
      (GetScale_access_bijection cfgSmall).2.2.1 3 (by decide) (by decide)⟩,
    ⟨by decide, by decide,
      (GetScale_access_bijection cfgSmall).2.1 3 4 (by decide) (by decide) (by decide)
        (by decide) (by decide)⟩⟩

/-! ## C13: the name tables as written, against `NUM_SCALES` -/

/-- C13. As written in the source, `scale_names_short` and `scale_names` have 53
entries each: the first four are the user-slot names (`USER1` to `USER4`,
`User-defined 1` to `User-defined 4`) and the other 49 are preset names, which
start with `"OFF "` and `"Off "` at index 4. Hence, with `SCALE_USER_LAST = 4`,
the length of the name tables is `NUM_SCALES` if and only if the preset table
has exactly 49 entries, and a name lookup is in bounds for every index of
`[0, NUM_SCALES)` if and only if the preset table has at most 49 entries. -/
theorem name_tables_as_written (cfg : Config) (hU : cfg.SCALE_USER_LAST = 4) :
    scale_names_short.length = 53 ∧ scale_names.length = 53 ∧
    scale_names_short.take 4 = ["USER1", "USER2", "USER3", "USER4"] ∧
    scale_names.take 4 =
      ["User-defined 1", "User-defined 2", "User-defined 3", "User-defined 4"] ∧
    (scale_names_short.drop 4).length = 49 ∧ (scale_names.drop 4).length = 49 ∧
    scale_names_short[4]? = some "OFF " ∧ scale_names[4]? = some "Off " ∧
    ((scale_names_short.length : Int) = NUM_SCALES cfg ↔ cfg.scales.length = 49) ∧
    ((scale_names.length : Int) = NUM_SCALES cfg ↔ cfg.scales.length = 49) ∧
    ((∀ i : Int, 0 ≤ i → i < NUM_SCALES cfg →
        (∃ a, scale_names_short[i.toNat]? = some a) ∧ ∃ b, scale_names[i.toNat]? = some b) ↔
      cfg.scales.length ≤ 49) := by
  have hsh : scale_names_short.length = 53 := by decide
  have hl : scale_names.length = 53 := by decide
  refine ⟨hsh, hl, by decide, by decide, by decide, by decide, by decide, by decide,
    ?_, ?_, ?_⟩
  · rw [hsh]
    unfold NUM_SCALES
    omega
  · rw [hl]
    unfold NUM_SCALES
    omega
  · unfold NUM_SCALES
    constructor
    · intro h
      by_contra hc
      obtain ⟨⟨a, ha⟩, _⟩ := h 53 (by omega) (by omega)
      have := (List.getElem?_eq_some_iff.mp ha).1
      have h53 : (53 : Int).toNat = 53 := by decide
      omega
    · intro h i h0 hN
      have h1 : i.toNat < scale_names_short.length := by omega
      have h2 : i.toNat < scale_names.length := by omega
      exact ⟨⟨_, List.getElem?_eq_getElem h1⟩, ⟨_, List.getElem?_eq_getElem h2⟩⟩

/-- Instance of C13 with four user slots and 49 presets. -/
theorem name_tables_as_written_witness :
    (cfgOfCount 49).SCALE_USER_LAST = 4 ∧ (cfgOfCount 49).scales.length = 49 ∧
    (scale_names_short.length : Int) = NUM_SCALES (cfgOfCount 49) ∧
    (scale_names.length : Int) = NUM_SCALES (cfgOfCount 49) ∧
    ∀ i : Int, 0 ≤ i → i < NUM_SCALES (cfgOfCount 49) →
      (∃ a, scale_names_short[i.toNat]? = some a) ∧ ∃ b, scale_names[i.toNat]? = some b :=
  ⟨by decide, by decide,
    (name_tables_as_written (cfgOfCount 49) (by decide)).2.2.2.2.2.2.2.2.1.mpr (by decide),
    (name_tables_as_written (cfgOfCount 49) (by decide)).2.2.2.2.2.2.2.2.2.1.mpr (by decide),
    (name_tables_as_written (cfgOfCount 49) (by decide)).2.2.2.2.2.2.2.2.2.2.mpr (by decide)⟩

/-! ## C14: the seed of `Init` is catalogue index `SCALE_USER_LAST + 1` -/

/-- C14. Provided the preset table has at least two entries, from every state of
the declared shape `Init` returns a state in which, for every `i` in
`[0, SCALE_USER_LAST)`, `GetScale i` equals `GetScale (SCALE_USER_LAST + 1)`,
the preset at position 1 and not the first preset: where presets 0 and 1
differ, no user slot reads as `GetScale SCALE_USER_LAST`, and replacing preset 0
by any other scale does not change the result of `Init`. With
`SCALE_USER_LAST = 4` the name tables label index `SCALE_USER_LAST + 1` as
`"SEMI"` and `"Semitone"`, and index `SCALE_USER_LAST` (preset 0) as `"OFF "`
and `"Off "`. -/
theorem Init_seed_is_second_preset (cfg : Config) (s : State) (hs : s.WF cfg)
    (h1 : 1 < cfg.scales.length) :
    (∃ s' seed, Init cfg s = some s' ∧
      GetScale cfg s' ((cfg.SCALE_USER_LAST : Int) + 1) = some seed ∧
      (∀ i : Int, 0 ≤ i → i < (cfg.SCALE_USER_LAST : Int) →
        GetScale cfg s' i = GetScale cfg s' ((cfg.SCALE_USER_LAST : Int) + 1)) ∧
      (cfg.scales[0]? ≠ cfg.scales[1]? →
        ∀ i : Int, 0 ≤ i → i < (cfg.SCALE_USER_LAST : Int) →
          GetScale cfg s' i ≠ GetScale cfg s' (cfg.SCALE_USER_LAST : Int))) ∧
    (∀ p : Scale, Init { cfg with scales := cfg.scales.set 0 p } s = Init cfg s) ∧
    (cfg.SCALE_USER_LAST = 4 →
      scale_names_short[cfg.SCALE_USER_LAST + 1]? = some "SEMI" ∧
      scale_names[cfg.SCALE_USER_LAST + 1]? = some "Semitone" ∧
      scale_names_short[cfg.SCALE_USER_LAST]? = some "OFF " ∧
      scale_names[cfg.SCALE_USER_LAST]? = some "Off ") := by
  have hseed : cfg.scales[1]? = some cfg.scales[1] := List.getElem?_eq_getElem h1
  have hpre : ∀ (st : State) (k : Nat),
      GetScale cfg st ((cfg.SCALE_USER_LAST : Int) + (k : Int)) = cfg.scales[k]? := by
    intro st k
    rw [GetScale_preset cfg st _ (by omega)]
    have : (cfg.SCALE_USER_LAST : Int) + (k : Int) - (cfg.SCALE_USER_LAST : Int) = (k : Int) := by
      omega
    rw [this, arrayAt_natCast]
  have huser : ∀ i : Int, 0 ≤ i → i < (cfg.SCALE_USER_LAST : Int) →
      GetScale cfg { user_scales := List.replicate cfg.SCALE_USER_LAST cfg.scales[1],
                     dummy_scale := s.dummy_scale } i = some cfg.scales[1] := by
    intro i h0 hi
    rw [GetScale_user cfg _ i hi, arrayAt_eq_some_iff]
    refine ⟨h0, ?_⟩
    have hn : i.toNat < cfg.SCALE_USER_LAST := by omega
    simp [List.getElem?_replicate, hn]
  refine ⟨⟨_, cfg.scales[1], Init_eq cfg s hs cfg.scales[1] hseed, ?_, ?_, ?_⟩, ?_, ?_⟩
  · have := hpre { user_scales := List.replicate cfg.SCALE_USER_LAST cfg.scales[1],
                   dummy_scale := s.dummy_scale } 1
    rw [hseed] at this
    exact this
  · intro i h0 hi
    have := hpre { user_scales := List.replicate cfg.SCALE_USER_LAST cfg.scales[1],
                   dummy_scale := s.dummy_scale } 1
    rw [hseed] at this
    rw [huser i h0 hi]
    exact this.symm
  · intro hne i h0 hi heq
    have h4 := hpre { user_scales := List.replicate cfg.SCALE_USER_LAST cfg.scales[1],
                      dummy_scale := s.dummy_scale } 0
    simp only [Nat.cast_zero, add_zero] at h4
    rw [huser i h0 hi, h4] at heq
    exact hne (by rw [hseed, heq])
  · intro p
    have hseed2 : (cfg.scales.set 0 p)[1]? = some cfg.scales[1] := by
      rw [List.getElem?_set_ne (by decide)]
      exact hseed
    rw [Init_eq cfg s hs cfg.scales[1] hseed]
    exact Init_eq { cfg with scales := cfg.scales.set 0 p } s hs cfg.scales[1] hseed2
  · intro hU
    rw [hU]
    exact ⟨by decide, by decide, by decide, by decide⟩

/-- Instance of C14 in `cfgSmall`, from the state `stSmall`. -/
theorem Init_seed_is_second_preset_witness :
    stSmall.WF cfgSmall ∧ 1 < cfgSmall.scales.length ∧ cfgSmall.SCALE_USER_LAST = 4 ∧
    (∃ s' seed, Init cfgSmall stSmall = some s' ∧
      GetScale cfgSmall s' ((cfgSmall.SCALE_USER_LAST : Int) + 1) = some seed ∧
      (∀ i : Int, 0 ≤ i → i < (cfgSmall.SCALE_USER_LAST : Int) →
        GetScale cfgSmall s' i = GetScale cfgSmall s' ((cfgSmall.SCALE_USER_LAST : Int) + 1)) ∧
      (cfgSmall.scales[0]? ≠ cfgSmall.scales[1]? →
        ∀ i : Int, 0 ≤ i → i < (cfgSmall.SCALE_USER_LAST : Int) →
          GetScale cfgSmall s' i ≠ GetScale cfgSmall s' (cfgSmall.SCALE_USER_LAST : Int))) ∧
    (scale_names_short[cfgSmall.SCALE_USER_LAST + 1]? = some "SEMI" ∧
      scale_names[cfgSmall.SCALE_USER_LAST + 1]? = some "Semitone" ∧
      scale_names_short[cfgSmall.SCALE_USER_LAST]? = some "OFF " ∧
      scale_names[cfgSmall.SCALE_USER_LAST]? = some "Off ") :=
  ⟨by decide, by decide, by decide,
    (Init_seed_is_second_preset cfgSmall stSmall (by decide) (by decide)).1,
    (Init_seed_is_second_preset cfgSmall stSmall (by decide) (by decide)).2.2 (by decide)⟩

end OC
